import Mathlib

/-!
Verification of the Product–Sale consistency and reporting engine of the
HB-jewelry dashboard.  The TypeScript source is shallowly embedded:

* JavaScript numbers that may be `undefined`/`null` or `NaN` are modelled by
  `JsVal`; arithmetic results (where `undefined` can no longer occur after a
  `?? 0` coalesce) by `JsNum`, with `NaN`-absorbing addition as in IEEE
  float semantics.  Finite values are rationals.
* Firestore timestamps are epoch milliseconds (`Int`).
* The Firestore batch API (`update` with partial payload, `set` with or
  without `merge`, `delete`) is modelled by `WriteOp` acting on a `Store`.
* `MarkSoldDialog.onSubmit` is `markSold`; `EditProductDialog.onSubmit`
  (the batch-building part) is `applyProductEdit`/`commitEdit`.
* `DashboardPage`'s `filteredSales`, `kpis`, `dailyData` memos and
  `OwnersSection`'s `totalContribution`/`weights`/`latestShares` memos are
  embedded as pure functions.  Day bucketing (`date-fns` `startOfDay`,
  `endOfDay`, `format "yyyy-MM-dd"`) operates in the client's local time
  zone, so those functions take an explicit offset `tz` (milliseconds east
  of UTC).
-/

/-- A JavaScript value read from a Firestore document field that is expected
to be numeric: it can be missing (`undefined` / `null`), a non-finite number
(`NaN`; infinities behave alike for the properties proved here), or a finite
number, modelled as a rational. -/
inductive JsVal where
  | undef
  | nan
  | num (q : Rat)
deriving DecidableEq, Repr

/-- A JavaScript number (result of arithmetic): non-finite or finite. -/
inductive JsNum where
  | nan
  | fin (q : Rat)
deriving DecidableEq, Repr

namespace JsNum

/-- IEEE-style addition: `NaN` absorbs. -/
def add : JsNum → JsNum → JsNum
  | nan, _ => nan
  | _, nan => nan
  | fin a, fin b => fin (a + b)

/-- IEEE-style subtraction: `NaN` absorbs. -/
def sub : JsNum → JsNum → JsNum
  | nan, _ => nan
  | _, nan => nan
  | fin a, fin b => fin (a - b)

/-- IEEE-style multiplication: `NaN` absorbs. -/
def mul : JsNum → JsNum → JsNum
  | nan, _ => nan
  | _, nan => nan
  | fin a, fin b => fin (a * b)

/-- The JS comparison `0 < x`: false when `x` is `NaN`. -/
def gtZero : JsNum → Bool
  | nan => false
  | fin q => decide (0 < q)

/-- Re-embed a number into a document field value. -/
def toVal : JsNum → JsVal
  | nan => .nan
  | fin q => .num q

end JsNum

namespace JsVal

/-- `Number(v ?? d)`: nullish coalescing then numeric coercion.  Missing
values become the default, `NaN` stays `NaN`. -/
def nullishNum (v : JsVal) (d : Rat) : JsNum :=
  match v with
  | undef => .fin d
  | nan => .nan
  | num q => .fin q

/-- `Number(v || 0)` (also `v || 0` inside `Math.max`): `undefined`, `NaN`
and `0` are all falsy, so the result is a plain (finite) number. -/
def orZero (v : JsVal) : Rat :=
  match v with
  | undef => 0
  | nan => 0
  | num q => if q = 0 then 0 else q

/-- JS numeric coercion in arithmetic position: `undefined` coerces to
`NaN`. -/
def asNum : JsVal → JsNum
  | undef => .nan
  | nan => .nan
  | num q => .fin q

end JsVal

/-- A document of the `products` collection as read by the dashboard
snapshot listener (`{ id: d.id, ...d.data() }`). -/
structure ProductDoc where
  id : String
  name : String
  buyPriceBHD : JsVal
  soldPriceBHD : JsVal
  productLink : Option String
  description : String
  imageUrl : String
  sold : Bool
  createdAt : Option Int
  soldAt : Option Int
  updatedAt : Option Int
deriving DecidableEq, Repr

/-- A document of the `sales` collection.  `productId` is `none` when the
field is missing. -/
structure SaleDoc where
  id : String
  productId : Option String
  productName : Option String
  buyPriceBHD : JsVal
  soldPriceBHD : JsVal
  profitBHD : JsVal
  soldAt : Option Int
  createdAt : Option Int
  updatedAt : Option Int
deriving DecidableEq, Repr

/-- An `owners` collection document. -/
structure OwnerDoc where
  id : String
  name : String
  contributionBHD : JsVal
deriving DecidableEq, Repr

/-- Partial update payload for `batch.update(productRef, {...})`: `none`
means the field is absent from the payload (left untouched). -/
structure ProductUpdate where
  name : Option String := none
  buyPriceBHD : Option JsVal := none
  soldPriceBHD : Option JsVal := none
  productLink : Option (Option String) := none
  description : Option String := none
  imageUrl : Option String := none
  sold : Option Bool := none
  soldAt : Option (Option Int) := none
  updatedAt : Option (Option Int) := none
deriving DecidableEq, Repr

/-- Payload for `batch.set(saleRef, {...})`: `none` means the field is
absent from the payload. -/
structure SalePayload where
  productId : Option (Option String) := none
  productName : Option (Option String) := none
  buyPriceBHD : Option JsVal := none
  soldPriceBHD : Option JsVal := none
  profitBHD : Option JsVal := none
  soldAt : Option (Option Int) := none
  createdAt : Option (Option Int) := none
  updatedAt : Option (Option Int) := none
deriving DecidableEq, Repr

/-- One write of a Firestore batch against the two collections the Sync
Engine touches. -/
inductive WriteOp where
  | updateProduct (id : String) (u : ProductUpdate)
  | setSale (merge : Bool) (id : String) (p : SalePayload)
  | deleteSale (id : String)
deriving DecidableEq, Repr

/-- The live contents of the `products` and `sales` collections. -/
structure Store where
  products : List ProductDoc
  sales : List SaleDoc
deriving DecidableEq, Repr

/-- Apply a partial update to a product document. -/
def applyProductUpdate (u : ProductUpdate) (p : ProductDoc) : ProductDoc :=
  { p with
    name := u.name.getD p.name
    buyPriceBHD := u.buyPriceBHD.getD p.buyPriceBHD
    soldPriceBHD := u.soldPriceBHD.getD p.soldPriceBHD
    productLink := u.productLink.getD p.productLink
    description := u.description.getD p.description
    imageUrl := u.imageUrl.getD p.imageUrl
    sold := u.sold.getD p.sold
    soldAt := u.soldAt.getD p.soldAt
    updatedAt := u.updatedAt.getD p.updatedAt }

/-- `setDoc(ref, payload)` without merge: the document becomes exactly the
payload (absent fields are missing from the new document). -/
def saleFromPayload (id : String) (pl : SalePayload) : SaleDoc :=
  { id := id
    productId := (pl.productId.getD none)
    productName := (pl.productName.getD none)
    buyPriceBHD := pl.buyPriceBHD.getD .undef
    soldPriceBHD := pl.soldPriceBHD.getD .undef
    profitBHD := pl.profitBHD.getD .undef
    soldAt := pl.soldAt.getD none
    createdAt := pl.createdAt.getD none
    updatedAt := pl.updatedAt.getD none }

/-- `setDoc(ref, payload, { merge: true })` on an existing document: every
field present in the payload overwrites the stored field; absent fields keep
their stored value.  (Firestore merge semantics: presence in the payload is
what decides, there is no keep-if-already-set behaviour.) -/
def mergeSale (pl : SalePayload) (s : SaleDoc) : SaleDoc :=
  { s with
    productId := pl.productId.getD s.productId
    productName := pl.productName.getD s.productName
    buyPriceBHD := pl.buyPriceBHD.getD s.buyPriceBHD
    soldPriceBHD := pl.soldPriceBHD.getD s.soldPriceBHD
    profitBHD := pl.profitBHD.getD s.profitBHD
    soldAt := pl.soldAt.getD s.soldAt
    createdAt := pl.createdAt.getD s.createdAt
    updatedAt := pl.updatedAt.getD s.updatedAt }

/-- Apply one batch write to the store. -/
def applyOp (st : Store) : WriteOp → Store
  | .updateProduct id u =>
      { st with products := st.products.map fun p => if p.id = id then applyProductUpdate u p else p }
  | .setSale merge id pl =>
      if st.sales.any (fun s => s.id = id) then
        { st with sales := st.sales.map fun s =>
            if s.id = id then (if merge then mergeSale pl s else saleFromPayload id pl) else s }
      else
        { st with sales := st.sales ++ [saleFromPayload id pl] }
  | .deleteSale id =>
      { st with sales := st.sales.filter fun s => s.id ≠ id }

/-- Commit a batch: all writes applied atomically, in order. -/
def applyBatch (st : Store) (ops : List WriteOp) : Store :=
  ops.foldl applyOp st

/-- `MarkSoldDialog.onSubmit`: marks the product sold and creates the sale
at a **freshly generated** document id (`doc(collection(db, "sales"))`),
modelled by the parameter `genId`.  Fields exactly as in the source; note
the sale payload carries no `updatedAt`. -/
def markSold (genId : String) (product : ProductDoc) (soldPriceBHD : Rat) (now : Int) :
    List WriteOp :=
  let profitBHD := JsNum.sub (.fin soldPriceBHD) (product.buyPriceBHD.nullishNum 0)
  [ .updateProduct product.id
      { sold := some true
        soldPriceBHD := some (.num soldPriceBHD)
        soldAt := some (some now)
        updatedAt := some (some now) },
    .setSale false genId
      { productId := some (some product.id)
        productName := some (some product.name)
        buyPriceBHD := some (product.buyPriceBHD.nullishNum 0).toVal
        soldPriceBHD := some (.num soldPriceBHD)
        profitBHD := some profitBHD.toVal
        soldAt := some (some now)
        createdAt := some (some now) } ]

/-- Commit `markSold` against the store. -/
def commitMarkSold (st : Store) (genId : String) (product : ProductDoc)
    (soldPriceBHD : Rat) (now : Int) : Store :=
  applyBatch st (markSold genId product soldPriceBHD now)

/-- The submitted edit-form values (after zod validation), plus the image
URL the write uses (the product's existing URL or the freshly uploaded
one). -/
structure EditValues where
  name : String
  buyPriceBHD : JsVal
  soldPriceBHD : JsVal
  productLink : Option String
  description : Option String
  sold : Bool
  imageUrl : String
deriving DecidableEq, Repr

/-- `String.prototype.trim()`: strip whitespace from both ends (structural
model, since Lean's own trim is defined by well-founded recursion and does
not reduce definitionally). -/
def jsTrim (s : String) : String :=
  ⟨((s.data.dropWhile Char.isWhitespace).reverse.dropWhile Char.isWhitespace).reverse⟩

/-- `values.productLink || null`: the empty string is falsy. -/
def linkOrNull (l : Option String) : Option String :=
  match l with
  | none => none
  | some s => if s = "" then none else some s

/-- `values.description?.trim() || ""`. -/
def descOrEmpty (d : Option String) : String :=
  match d with
  | none => ""
  | some s => if jsTrim s = "" then "" else jsTrim s

/-- Step 3 of `EditProductDialog.onSubmit`: the product update payload.
All form fields are written unconditionally; `soldAt` is stamped only on
the unsold-to-sold transition and cleared to null whenever the submitted
edit is unsold. -/
def editProductUpdate (product : ProductDoc) (v : EditValues) (now : Int) : ProductUpdate :=
  { name := some (jsTrim v.name)
    buyPriceBHD := some (v.buyPriceBHD.nullishNum 0).toVal
    soldPriceBHD := some v.soldPriceBHD
    productLink := some (linkOrNull v.productLink)
    description := some (descOrEmpty v.description)
    imageUrl := some v.imageUrl
    sold := some v.sold
    soldAt :=
      if v.sold ∧ ¬product.sold then some (some now)
      else if ¬v.sold then some none
      else none
    updatedAt := some (some now) }

/-- Step 4 of `EditProductDialog.onSubmit`: sync the single canonical sale
row at doc id `product.id` (merge-upsert while sold, delete otherwise). -/
def editSaleOp (product : ProductDoc) (v : EditValues) (now : Int) : WriteOp :=
  if v.sold ∧ v.soldPriceBHD ≠ .undef then
    .setSale true product.id
      { productId := some (some product.id)
        productName := some (some (jsTrim v.name))
        buyPriceBHD := some (v.buyPriceBHD.nullishNum 0).toVal
        soldPriceBHD := some v.soldPriceBHD
        profitBHD := some (JsNum.sub v.soldPriceBHD.asNum (v.buyPriceBHD.nullishNum 0)).toVal
        soldAt := some (some now)
        createdAt := some (some now)
        updatedAt := some (some now) }
  else
    .deleteSale product.id

/-- Step 5 of `EditProductDialog.onSubmit`: delete every stray sale (same
`productId`, different doc id), queried from the current store and added to
the same batch. -/
def editStrays (st : Store) (product : ProductDoc) : List WriteOp :=
  ((st.sales.filter fun s =>
      s.productId = some product.id ∧ s.id ≠ product.id).map fun s => s.id).map
    WriteOp.deleteSale

/-- `EditProductDialog.onSubmit`, steps 2–5: validation, then the atomic
batch.  Returns `none` on the missing-sold-price validation failure (the
code returns before creating the batch), otherwise the full list of batch
writes in source order: product update, canonical sale set/delete, then the
stray-duplicate deletes — all added to the **same** batch, which is
committed once. -/
def applyProductEdit (st : Store) (product : ProductDoc) (v : EditValues) (now : Int) :
    Option (List WriteOp) :=
  if v.sold ∧ (v.soldPriceBHD = .undef ∨ v.soldPriceBHD = .nan) then
    none
  else
    some (.updateProduct product.id (editProductUpdate product v now)
      :: editSaleOp product v now
      :: editStrays st product)

/-- The observable effect of one `EditProductDialog.onSubmit` run on the
store: on validation failure nothing is written; otherwise the single batch
is committed. -/
def commitEdit (st : Store) (product : ProductDoc) (v : EditValues) (now : Int) : Store :=
  match applyProductEdit st product v now with
  | none => st
  | some ops => applyBatch st ops

/-! ## Aggregation Engine (DashboardPage memos) -/

/-- One day in milliseconds. -/
def dayMs : Int := 86400000

/-- `date-fns` `startOfDay` evaluated in a client whose local offset is
`tz` milliseconds east of UTC, as an epoch-milliseconds instant. -/
def startOfDay (tz t : Int) : Int :=
  Int.fdiv (t + tz) dayMs * dayMs - tz

/-- `date-fns` `endOfDay` (23:59:59.999 local). -/
def endOfDay (tz t : Int) : Int :=
  startOfDay tz t + dayMs - 1

/-- The local calendar day a `format(d, "yyyy-MM-dd")` label denotes, as a
day index (the label is a strictly monotone encoding of this index). -/
def dayKey (tz t : Int) : Int :=
  Int.fdiv (t + tz) dayMs

/-- A `react-day-picker` `DateRange` value. -/
structure DateRangeV where
  fromDate : Option Int
  toDate : Option Int
deriving DecidableEq, Repr

/-- The filter body of `DashboardPage.filteredSales`: truthy `productId`
that references an existing product, and `soldAt` present and inside the
slack-widened window. -/
def saleInWindow (existingProductIds : List String) (fromMs toMs : Int)
    (s : SaleDoc) : Bool :=
  match s.productId with
  | none => false
  | some pid =>
    if pid = "" then false
    else if ¬ existingProductIds.contains pid then false
    else
      match s.soldAt with
      | none => false
      | some t => decide (fromMs ≤ t) && decide (t ≤ toMs)

/-- `DashboardPage.filteredSales`: sales whose `productId` is truthy and
references an existing product and whose `soldAt` falls in the picked range
widened by 60 s on both sides; empty when no range start is picked.  `now`
is the clock read by `new Date()`, `tz` the client's local offset. -/
def filterSales (sales : List SaleDoc) (products : List ProductDoc)
    (range : Option DateRangeV) (now tz : Int) : List SaleDoc :=
  match range with
  | none => []
  | some r =>
    match r.fromDate with
    | none => []
    | some f =>
      let existingProductIds := products.map (fun p => p.id)
      let fromMs := startOfDay tz f - 60000
      let toMs := (match r.toDate with
        | some t => endOfDay tz t
        | none => endOfDay tz now) + 60000
      sales.filter (saleInWindow existingProductIds fromMs toMs)

/-- The four dashboard KPIs. -/
structure Kpis where
  totalRevenue : JsNum
  totalCost : JsNum
  totalProfit : JsNum
  itemsSoldCount : Nat
deriving DecidableEq, Repr

/-- `DashboardPage.kpis`: cost over unsold products, revenue/profit/count
over the already-filtered sales. -/
def kpis (products : List ProductDoc) (filteredSales : List SaleDoc) : Kpis :=
  let availableProducts := products.filter fun p => !p.sold
  let totalCost := availableProducts.foldl
    (fun sum p => JsNum.add sum (p.buyPriceBHD.nullishNum 0)) (.fin 0)
  let totalRevenue := filteredSales.foldl
    (fun sum s => JsNum.add sum (s.soldPriceBHD.nullishNum 0)) (.fin 0)
  let totalProfit := filteredSales.foldl
    (fun sum s => JsNum.add sum (s.profitBHD.nullishNum 0)) (.fin 0)
  { totalRevenue := totalRevenue
    totalCost := totalCost
    totalProfit := totalProfit
    itemsSoldCount := filteredSales.length }

/-- Insert one sale's contribution into the `byDay` accumulator, preserving
first-insertion key order (JS object non-index string keys enumerate in
insertion order). -/
def addDay : List (Int × Rat × Rat) → Int → Rat → Rat → List (Int × Rat × Rat)
  | [], d, r, p => [(d, r, p)]
  | (d', r', p') :: rest, d, r, p =>
    if d' = d then (d', r' + r, p' + p) :: rest
    else (d', r', p') :: addDay rest d r p

/-- The `byDay` record of `DashboardPage.dailyData`. -/
def byDay (tz : Int) (filteredSales : List SaleDoc) : List (Int × Rat × Rat) :=
  filteredSales.foldl
    (fun acc s =>
      match s.soldAt with
      | none => acc
      | some t => addDay acc (dayKey tz t) s.soldPriceBHD.orZero s.profitBHD.orZero)
    []

/-- The comparison `new Date(a.date).getTime() - new Date(b.date).getTime()`
used to sort the series: on `yyyy-MM-dd` labels it orders exactly by day
index. -/
def dayLE (a b : Int × Rat × Rat) : Prop := a.1 ≤ b.1

instance : DecidableRel dayLE := fun a b => inferInstanceAs (Decidable (a.1 ≤ b.1))

instance : IsTotal (Int × Rat × Rat) dayLE := ⟨fun a b => Int.le_total a.1 b.1⟩

instance : IsTrans (Int × Rat × Rat) dayLE := ⟨fun _ _ _ hab hbc => le_trans hab hbc⟩

/-- `DashboardPage.dailyData`: group the filtered sales by local calendar
day of `soldAt`, then sort ascending by day. -/
def dailyData (tz : Int) (filteredSales : List SaleDoc) : List (Int × Rat × Rat) :=
  (byDay tz filteredSales).insertionSort dayLE

/-! ## Allocation Engine (OwnersSection memos) -/

/-- `OwnersSection.totalContribution`: adds `o.contributionBHD` when
`typeof` it is `"number"` (which includes `NaN`), else `0`. -/
def totalContribution (owners : List OwnerDoc) : JsNum :=
  owners.foldl
    (fun sum o => JsNum.add sum
      (match o.contributionBHD with
        | .undef => .fin 0
        | .nan => .nan
        | .num q => .fin q))
    (.fin 0)

/-- A JS record with string keys, as a total function returning `undefined`
for absent keys. -/
def rset (m : String → JsVal) (k : String) (v : JsVal) : String → JsVal :=
  fun k' => if k' = k then v else m k'

/-- `OwnersSection.weights`: empty when there are no owners or no latest
sale; proportional to clamped contributions when `totalContribution > 0`
(false for `NaN`), else an equal split. -/
def weights (owners : List OwnerDoc) (latestSale : Option SaleDoc) : String → JsVal :=
  if owners.isEmpty || latestSale.isNone then fun _ => .undef
  else
    let tc := totalContribution owners
    if tc.gtZero then
      let total : Rat := match tc with | .nan => 1 | .fin q => if q = 0 then 1 else q
      owners.foldl
        (fun w o => rset w o.id (.num (max 0 o.contributionBHD.orZero / total)))
        (fun _ => .undef)
    else
      let eq : Rat := if owners.isEmpty then 0 else 1 / (owners.length : Rat)
      owners.foldl (fun w o => rset w o.id (.num eq)) (fun _ => .undef)

/-- `latestSale?.profitBHD ?? 0`. -/
def latestProfit (latestSale : Option SaleDoc) : JsNum :=
  match latestSale with
  | none => .fin 0
  | some s => s.profitBHD.nullishNum 0

/-- `OwnersSection.latestShares`: empty when there is no latest sale, else
`latestProfit * (weights[o.id] ?? 0)` per owner. -/
def latestShares (owners : List OwnerDoc) (latestSale : Option SaleDoc) : String → JsVal :=
  match latestSale with
  | none => fun _ => .undef
  | some _ =>
    let w := weights owners latestSale
    let lp := latestProfit latestSale
    owners.foldl
      (fun res o => rset res o.id (JsNum.mul lp ((w o.id).nullishNum 0)).toVal)
      (fun _ => .undef)

/-- The displayed share: `latestShares[o.id] || 0`. -/
def shareAmount (owners : List OwnerDoc) (latestSale : Option SaleDoc) (oid : String) : Rat :=
  (latestShares owners latestSale oid).orZero

/-! ## Concrete fixtures used by witnesses and counterexamples -/

/-- An unsold product. -/
def pUnsold : ProductDoc :=
  { id := "p1", name := "Ring", buyPriceBHD := .num 5, soldPriceBHD := .undef,
    productLink := none, description := "", imageUrl := "u", sold := false,
    createdAt := some 100, soldAt := none, updatedAt := some 100 }

/-- The same product recorded as sold for 8 at time 1000. -/
def pSold : ProductDoc :=
  { pUnsold with
    sold := true
    soldPriceBHD := .num 8
    soldAt := some 1000
    updatedAt := some 1000 }

/-- The canonical sale document for `pSold` (doc id = product id). -/
def sale0 : SaleDoc :=
  { id := "p1", productId := some "p1", productName := some "Ring",
    buyPriceBHD := .num 5, soldPriceBHD := .num 8, profitBHD := .num 3,
    soldAt := some 1000, createdAt := some 900, updatedAt := some 1000 }

/-- A stray duplicate: same `productId` as `sale0` but a different doc id. -/
def straySale : SaleDoc := { sale0 with id := "r1" }

/-- An edit that keeps the product sold (name change only). -/
def editKeepSold : EditValues :=
  { name := "Ring2", buyPriceBHD := .num 5, soldPriceBHD := .num 8,
    productLink := none, description := none, sold := true, imageUrl := "u" }

/-- An edit marking sold but leaving the sold price empty. -/
def editNoPrice : EditValues := { editKeepSold with soldPriceBHD := .undef }

/-! ## Store lemmas -/

/-- Whether a write touches only the `sales` collection. -/
def WriteOp.salesOnly : WriteOp → Bool
  | .updateProduct _ _ => false
  | .setSale _ _ _ => true
  | .deleteSale _ => true

/-- Spec-side qualification (after the spec's words): the sale's
`productId` references an existing Product and its `soldAt` lies in
`[lo, hi]`. -/
def qualifies (products : List ProductDoc) (s : SaleDoc) (lo hi : Int) : Prop :=
  (∃ p ∈ products, s.productId = some p.id) ∧ ∃ t, s.soldAt = some t ∧ lo ≤ t ∧ t ≤ hi

/-- Spec-side value of a numeric field: its number when present and finite,
`0` when missing. -/
def finOr0 : JsVal → Rat
  | .num q => q
  | _ => 0

/-- The products of the C6 aggregation scenario: P1 bought for 10, unsold;
P2 bought for 5 and sold for 8 during day 0. -/
def p1Agg : ProductDoc := { pUnsold with id := "q1", buyPriceBHD := .num 10 }

/-- Spec-side contribution of an owner (the claim presumes it numeric). -/
def contribR (o : OwnerDoc) : Rat := finOr0 o.contributionBHD

/-- Spec-side total contribution. -/
def specTotal (owners : List OwnerDoc) : Rat := (owners.map contribR).sum

/-- The claim's weight formula: `max(0, contribution)/totalContribution`
when the total is positive, an equal `1/ownerCount` split otherwise. -/
def specWeight (owners : List OwnerDoc) (o : OwnerDoc) : Rat :=
  if 0 < specTotal owners then max 0 (contribR o) / specTotal owners
  else 1 / (owners.length : Rat)

/-- Owner fixtures for the allocation scenario: contributions 30 and 70. -/
def ownA : OwnerDoc := { id := "a", name := "A", contributionBHD := .num 30 }

/-- Second owner of the allocation scenario. -/
def ownB : OwnerDoc := { id := "b", name := "B", contributionBHD := .num 70 }

/-- The same owners with zero contributions. -/
def ownA0 : OwnerDoc := { ownA with contributionBHD := .num 0 }

/-- Second zero-contribution owner. -/
def ownB0 : OwnerDoc := { ownB with contributionBHD := .num 0 }

/-- The latest sale of the allocation scenario: profit 20. -/
def sale20 : SaleDoc := { sale0 with profitBHD := .num 20 }

/-- Lookup in the `byDay` accumulator (JS record access `byDay[day]`). -/
def lookupDay (d : Int) : List (Int × Rat × Rat) → Option (Rat × Rat)
  | [] => none
  | (e, r, p) :: rest => if e = d then some (r, p) else lookupDay d rest

/-- The keys of the `byDay` accumulator. -/
def dayKeys (l : List (Int × Rat × Rat)) : List Int := l.map fun e => e.1

/-- Whether some filtered sale falls on local day `d`. -/
def hasDayB (tz d : Int) (l : List SaleDoc) : Bool :=
  l.any fun s =>
    match s.soldAt with
    | none => false
    | some t => decide (dayKey tz t = d)

/-- Spec-side revenue of local day `d`: sum of `soldPriceBHD || 0` over the
sales whose `soldAt` falls on that day. -/
def dayRevenue (tz d : Int) (l : List SaleDoc) : Rat :=
  (l.map fun s =>
    match s.soldAt with
    | none => 0
    | some t => if dayKey tz t = d then s.soldPriceBHD.orZero else 0).sum

/-- Spec-side profit of local day `d`. -/
def dayProfit (tz d : Int) (l : List SaleDoc) : Rat :=
  (l.map fun s =>
    match s.soldAt with
    | none => 0
    | some t => if dayKey tz t = d then s.profitBHD.orZero else 0).sum

/-- The sale of the time-zone counterexample: sold exactly at the epoch
instant 0 for 8 with profit 3. -/
def saleMidnight : SaleDoc := { sale0 with soldAt := some 0 }

/-- An unsold product whose `buyPriceBHD` is `NaN`. -/
def pNan : ProductDoc := { pUnsold with id := "q2", buyPriceBHD := .nan }

/-- Writes against the `sales` collection never change `products`. -/
theorem applyOp_setSale_products (st : Store) (m : Bool) (id : String) (pl : SalePayload) :
    (applyOp st (.setSale m id pl)).products = st.products := by
  simp only [applyOp]
  split <;> rfl

/-- Deleting a sale never changes `products`. -/
theorem applyOp_deleteSale_products (st : Store) (id : String) :
    (applyOp st (.deleteSale id)).products = st.products := rfl

/-- A batch of sales-only writes leaves `products` unchanged. -/
theorem applyBatch_salesOnly_products (ops : List WriteOp)
    (h : ∀ op ∈ ops, op.salesOnly = true) (st : Store) :
    (applyBatch st ops).products = st.products := by
  induction ops generalizing st with
  | nil => rfl
  | cons op rest ih =>
    have hop := h op (by simp)
    have hrest : ∀ op' ∈ rest, op'.salesOnly = true := fun op' hm => h op' (by simp [hm])
    show (applyBatch (applyOp st op) rest).products = st.products
    rw [ih hrest]
    cases op with
    | updateProduct id u => simp [WriteOp.salesOnly] at hop
    | setSale m id pl => exact applyOp_setSale_products st m id pl
    | deleteSale id => rfl

/-- Deletions only remove sale documents, never add them. -/
theorem mem_sales_applyBatch_deletes (ops : List WriteOp)
    (h : ∀ op ∈ ops, ∃ i, op = .deleteSale i) (st : Store) (s : SaleDoc)
    (hs : s ∈ (applyBatch st ops).sales) : s ∈ st.sales := by
  induction ops generalizing st with
  | nil => exact hs
  | cons op rest ih =>
    obtain ⟨i, rfl⟩ := h op (by simp)
    have hrest : ∀ op' ∈ rest, ∃ i, op' = .deleteSale i := fun op' hm => h op' (by simp [hm])
    have := ih hrest _ hs
    simp only [applyOp] at this
    exact List.mem_of_mem_filter this

/-- A run of `deleteSale` writes filters out exactly the listed ids. -/
theorem applyBatch_deletes_sales (ids : List String) (st : Store) :
    (applyBatch st (ids.map WriteOp.deleteSale)).sales
      = st.sales.filter fun s => !(ids.contains s.id) := by
  induction ids generalizing st with
  | nil => simp [applyBatch]
  | cons i rest ih =>
    show (applyBatch (applyOp st (.deleteSale i)) (rest.map WriteOp.deleteSale)).sales = _
    rw [ih]
    simp only [applyOp, List.filter_filter]
    apply List.filter_congr
    intro s _
    by_cases hi : s.id = i <;> simp [hi]

/-! ## Claim C1 -/

/-- Claim C1 fails on the code: evaluating `MarkSoldDialog.onSubmit` on the
unsold product `p1` (buy 5) at sold price 8 with freshly generated sale doc
id `r1` writes the Sale at the random id `r1`, not at the product's id, so
a Sale whose document id differs from its product's id is created by a
live sale-recording operation. -/
theorem C1_markSold_random_id :
    (commitMarkSold ⟨[pUnsold], []⟩ "r1" pUnsold 8 2000).sales.map
        (fun s => (s.id, s.productId)) = [("r1", some "p1")]
      ∧ ("r1" : String) ≠ pUnsold.id := by
  constructor
  · rfl
  · decide

/-! ## Claim C2 -/

/-- Claim C2 fails on the code: editing the still-sold product `p1` (whose
Sale document exists with `soldAt = 1000`, `createdAt = 900`) at time 5000
overwrites the Sale's `soldAt` and `createdAt` with the new server
timestamp — `setDoc(..., { merge: true })` overwrites every field present
in the payload, and the payload always carries `soldAt`/`createdAt`. -/
theorem C2_merge_clobbers_soldAt :
    sale0.soldAt = some 1000 ∧ sale0.createdAt = some 900
      ∧ (commitEdit ⟨[pSold], [sale0]⟩ pSold editKeepSold 5000).sales.map
          (fun s => (s.id, s.soldAt, s.createdAt))
        = [("p1", some 5000, some 5000)] := by
  refine ⟨rfl, rfl, rfl⟩

/-! ## Claim C4 -/

/-- Claim C4: an edit with `sold == true` whose sold price is absent or not
a number fails validation before the batch is even created, and the store
(the Product and any existing Sale) is completely unchanged. -/
theorem C4_validation_no_writes (st : Store) (product : ProductDoc)
    (v : EditValues) (now : Int) (hsold : v.sold = true)
    (hmiss : v.soldPriceBHD = .undef ∨ v.soldPriceBHD = .nan) :
    applyProductEdit st product v now = none ∧ commitEdit st product v now = st := by
  have hn : applyProductEdit st product v now = none := by
    rcases hmiss with h | h <;> simp [applyProductEdit, hsold, h]
  exact ⟨hn, by simp [commitEdit, hn]⟩

/-- Witness for C4 at a concrete input: editing the sold product `p1` with
an empty sold price leaves the store `⟨[pSold], [sale0]⟩` untouched. -/
theorem C4_validation_no_writes_witness :
    applyProductEdit ⟨[pSold], [sale0]⟩ pSold editNoPrice 5000 = none
      ∧ commitEdit ⟨[pSold], [sale0]⟩ pSold editNoPrice 5000 = ⟨[pSold], [sale0]⟩ :=
  C4_validation_no_writes ⟨[pSold], [sale0]⟩ pSold editNoPrice 5000 (by decide) (by decide)

/-! ## Claims C9 and C3: batch shape lemmas -/

/-- The canonical sale write of an edit touches only the `sales`
collection. -/
theorem editSaleOp_salesOnly (p : ProductDoc) (v : EditValues) (now : Int) :
    (editSaleOp p v now).salesOnly = true := by
  unfold editSaleOp
  split <;> rfl

/-- Stray cleanup writes are all deletions. -/
theorem editStrays_deletes (st : Store) (p : ProductDoc) :
    ∀ op ∈ editStrays st p, ∃ i, op = WriteOp.deleteSale i := by
  intro op hop
  unfold editStrays at hop
  obtain ⟨i, _, rfl⟩ := List.mem_map.1 hop
  exact ⟨i, rfl⟩

/-- A product update does not touch the `sales` collection. -/
theorem applyOp_updateProduct_sales (st : Store) (id : String) (u : ProductUpdate) :
    (applyOp st (.updateProduct id u)).sales = st.sales := rfl

/-- Merging a payload never changes a document's id. -/
theorem mergeSale_id (pl : SalePayload) (s : SaleDoc) : (mergeSale pl s).id = s.id := rfl

/-- Claim C9: in the product write computed by `applyProductEdit`, `soldAt`
is stamped with the current time exactly on the unsold-to-sold transition,
cleared to null on the sold-to-unsold transition (whose edit also deletes
the Sale keyed by the product's id, leaving no sale at that id), and left
untouched on every other edit, including edits while remaining sold.  The
product is assumed well-formed (unsold implies no `soldAt`). -/
theorem C9_soldAt_transitions (sales : List SaleDoc) (p : ProductDoc) (v : EditValues)
    (now : Int)
    (hv : ¬(v.sold = true ∧ (v.soldPriceBHD = .undef ∨ v.soldPriceBHD = .nan)))
    (hwf : p.sold = false → p.soldAt = none) :
    ∃ p', (commitEdit ⟨[p], sales⟩ p v now).products = [p']
      ∧ (v.sold = true → p.sold = false → p'.soldAt = some now)
      ∧ (v.sold = false → p.sold = true →
          p'.soldAt = none
            ∧ WriteOp.deleteSale p.id ∈ (applyProductEdit ⟨[p], sales⟩ p v now).getD []
            ∧ ∀ s ∈ (commitEdit ⟨[p], sales⟩ p v now).sales, s.id ≠ p.id)
      ∧ (v.sold = true → p.sold = true → p'.soldAt = p.soldAt)
      ∧ (v.sold = false → p.sold = false → p'.soldAt = p.soldAt) := by
  have hsome : applyProductEdit ⟨[p], sales⟩ p v now
      = some (.updateProduct p.id (editProductUpdate p v now)
          :: editSaleOp p v now :: editStrays ⟨[p], sales⟩ p) := by
    unfold applyProductEdit
    rw [if_neg hv]
  have hcommit : commitEdit ⟨[p], sales⟩ p v now
      = applyBatch ⟨[p], sales⟩ (.updateProduct p.id (editProductUpdate p v now)
          :: editSaleOp p v now :: editStrays ⟨[p], sales⟩ p) := by
    unfold commitEdit
    rw [hsome]
  refine ⟨applyProductUpdate (editProductUpdate p v now) p, ?_, ?_, ?_, ?_, ?_⟩
  · rw [hcommit]
    show (applyBatch (applyOp ⟨[p], sales⟩ _) (editSaleOp p v now :: editStrays ⟨[p], sales⟩ p)).products = _
    rw [applyBatch_salesOnly_products]
    · simp [applyOp]
    · intro op hop
      rcases List.mem_cons.1 hop with rfl | hop'
      · exact editSaleOp_salesOnly p v now
      · obtain ⟨i, rfl⟩ := editStrays_deletes _ _ op hop'
        rfl
  · intro hvs hps
    simp [applyProductUpdate, editProductUpdate, hvs, hps]
  · intro hvs hps
    have hdel : editSaleOp p v now = .deleteSale p.id := by
      unfold editSaleOp
      rw [if_neg]
      simp [hvs]
    refine ⟨by simp [applyProductUpdate, editProductUpdate, hvs], ?_, ?_⟩
    · rw [hsome, hdel]
      simp
    · intro s hs
      rw [hcommit, hdel] at hs
      simp only [applyBatch, List.foldl_cons] at hs
      have h1 := mem_sales_applyBatch_deletes _ (editStrays_deletes _ _) _ s (by exact hs)
      simp only [applyOp] at h1
      exact of_decide_eq_true (List.mem_filter.mp h1).2
  · intro hvs hps
    simp [applyProductUpdate, editProductUpdate, hvs, hps]
  · intro hvs hps
    simp [applyProductUpdate, editProductUpdate, hvs, hps, hwf hps]

/-- Witness for C9 at a concrete input: editing `pSold` while it stays sold
leaves the stored product's `soldAt` at its original value 1000. -/
theorem C9_soldAt_transitions_witness :
    (commitEdit ⟨[pSold], [sale0]⟩ pSold editKeepSold 5000).products.map
      (fun q => q.soldAt) = [some 1000] := by
  obtain ⟨p', hp, _, _, hstay, _⟩ :=
    C9_soldAt_transitions [sale0] pSold editKeepSold 5000 (by decide) (by decide)
  rw [hp, List.map_cons, hstay rfl rfl]
  rfl

/-! ## Claim C3 -/

/-- Claim C3 fails on the code: at a concrete store holding the canonical
sale and a stray duplicate (`id = "r1"`, same `productId`), the batch built
by one edit already contains the stray's delete — the cleanup is part of
the atomic batch, not a post-commit step, so the batch holds more than the
product write and the canonical sale write. -/
theorem C3_cleanup_in_batch_counterexample :
    (applyProductEdit ⟨[pSold], [sale0, straySale]⟩ pSold editKeepSold 5000).isSome = true
      ∧ WriteOp.deleteSale "r1"
          ∈ (applyProductEdit ⟨[pSold], [sale0, straySale]⟩ pSold editKeepSold 5000).getD []
      ∧ ("r1" : String) ≠ pSold.id := by
  refine ⟨rfl, by decide, by decide⟩

/-- Claim C3 as amended: whenever validation passes, every stray sale
(same `productId` as the edited product, different doc id) has its delete
in the single atomic batch itself, and after that one commit no sale with
this `productId` but a different id remains — there is no separate
post-commit reconciliation step. -/
theorem C3_strays_in_batch (st : Store) (p : ProductDoc) (v : EditValues) (now : Int)
    (ops : List WriteOp) (h : applyProductEdit st p v now = some ops) :
    (∀ s ∈ st.sales, s.productId = some p.id → s.id ≠ p.id →
        WriteOp.deleteSale s.id ∈ ops)
      ∧ ∀ s ∈ (applyBatch st ops).sales, s.productId = some p.id → s.id = p.id := by
  unfold applyProductEdit at h
  by_cases hv : v.sold = true ∧ (v.soldPriceBHD = .undef ∨ v.soldPriceBHD = .nan)
  · rw [if_pos hv] at h
    exact absurd h (by simp)
  · rw [if_neg hv] at h
    injection h with h
    subst h
    constructor
    · intro s hs hpid hne
      refine List.mem_cons_of_mem _ (List.mem_cons_of_mem _ ?_)
      unfold editStrays
      refine List.mem_map.2 ⟨s.id, ?_, rfl⟩
      refine List.mem_map.2 ⟨s, ?_, rfl⟩
      exact List.mem_filter.2 ⟨hs, by simp [hpid, hne]⟩
    · intro s hs hpid
      simp only [applyBatch, List.foldl_cons] at hs
      have hfold : (List.foldl applyOp
          (applyOp (applyOp st (.updateProduct p.id (editProductUpdate p v now)))
            (editSaleOp p v now)) (editStrays st p)).sales
          = (applyOp (applyOp st (.updateProduct p.id (editProductUpdate p v now)))
              (editSaleOp p v now)).sales.filter
            (fun x => !(((st.sales.filter fun s =>
                s.productId = some p.id ∧ s.id ≠ p.id).map fun s => s.id).contains x.id)) := by
        exact applyBatch_deletes_sales _ _
      rw [hfold] at hs
      obtain ⟨hmem, hnotc⟩ := List.mem_filter.mp hs
      have hnotstray : ¬((st.sales.filter fun x =>
          x.productId = some p.id ∧ x.id ≠ p.id).map (fun x => x.id)).contains s.id = true := by
        intro hc
        rw [hc] at hnotc
        exact absurd hnotc (by decide)
      by_cases hid : s.id = p.id
      · exact hid
      · exfalso
        have hsst : s ∈ st.sales := by
          unfold editSaleOp at hmem
          split at hmem
          · simp only [applyOp, applyOp_updateProduct_sales] at hmem
            split at hmem
            · obtain ⟨s₀, hs₀, hg⟩ := List.mem_map.1 hmem
              by_cases h₀ : s₀.id = p.id
              · rw [if_pos h₀] at hg
                exact absurd (hg ▸ (h₀ ▸ mergeSale_id _ s₀)) hid
              · rw [if_neg h₀] at hg
                exact hg ▸ hs₀
            · rcases List.mem_append.1 hmem with hmem' | hmem'
              · exact hmem'
              · exact absurd ((List.mem_singleton.1 hmem') ▸ rfl) hid
          · simp only [applyOp, applyOp_updateProduct_sales] at hmem
            exact List.mem_of_mem_filter hmem
        apply hnotstray
        have : s ∈ (st.sales.filter fun x => x.productId = some p.id ∧ x.id ≠ p.id) :=
          List.mem_filter.2 ⟨hsst, by simp [hpid, hid]⟩
        exact List.elem_eq_true_of_mem (List.mem_map.2 ⟨s, this, rfl⟩)

/-- Witness for C3 (amended) at the concrete stray-duplicate store: the
stray's delete is part of the one atomic batch the edit commits. -/
theorem C3_strays_in_batch_witness :
    WriteOp.deleteSale straySale.id
      ∈ (applyProductEdit ⟨[pSold], [sale0, straySale]⟩ pSold editKeepSold 5000).getD [] := by
  refine (C3_strays_in_batch ⟨[pSold], [sale0, straySale]⟩ pSold editKeepSold 5000 _
    (by rfl)).1 straySale ?_ ?_ ?_
  · exact List.mem_cons_of_mem _ (List.mem_cons_self _ _)
  · rfl
  · decide

/-! ## Claim C5 -/

/-- The code's filter body agrees with the spec-side qualification whenever
product ids are nonempty strings (as Firestore document ids always are). -/
theorem saleInWindow_iff (products : List ProductDoc) (lo hi : Int) (s : SaleDoc)
    (hid : ∀ p ∈ products, p.id ≠ "") :
    saleInWindow (products.map fun p => p.id) lo hi s = true ↔ qualifies products s lo hi := by
  unfold saleInWindow qualifies
  cases hpid : s.productId with
  | none => simp
  | some pid =>
    simp only []
    by_cases hpe : pid = ""
    · subst hpe
      simp only [if_pos rfl]
      constructor
      · intro h
        exact absurd h (by simp)
      · rintro ⟨⟨p, hp, hpid'⟩, -⟩
        exact absurd (Option.some_injective _ hpid').symm (hid p hp)
    · rw [if_neg hpe]
      by_cases hc : (products.map fun p => p.id).contains pid
      · rw [if_neg (not_not_intro hc)]
        obtain ⟨p, hp, hpeq⟩ := List.mem_map.1 (List.mem_of_elem_eq_true hc)
        have hex : ∃ p ∈ products, (some pid : Option String) = some p.id :=
          ⟨p, hp, by rw [hpeq]⟩
        cases hsold : s.soldAt with
        | none => simp [hex]
        | some t =>
          simp only [Bool.and_eq_true, decide_eq_true_eq]
          constructor
          · intro ⟨h1, h2⟩
            exact ⟨hex, t, rfl, h1, h2⟩
          · rintro ⟨-, t', ht', h1, h2⟩
            obtain rfl := Option.some_injective _ ht'
            exact ⟨h1, h2⟩
      · rw [if_pos hc]
        constructor
        · intro h
          exact absurd h (by simp)
        · rintro ⟨⟨p, hp, hpid'⟩, -⟩
          exact (hc (List.elem_eq_true_of_mem
            (List.mem_map.2 ⟨p, hp, (Option.some_injective _ hpid').symm⟩))).elim

/-- Claim C5: a sale is in `filteredSales` iff it is in the snapshot, its
`productId` references an existing product, and its `soldAt` lies in
`[startOfDay(from) − 60s, endOfDay(to or today) + 60s]`; and with no range
start the result is empty.  Product ids are assumed to be nonempty strings
(Firestore document ids are never empty). -/
theorem C5_filterSales_membership (sales : List SaleDoc) (products : List ProductDoc)
    (hid : ∀ p ∈ products, p.id ≠ "") :
    (∀ f toOpt now tz s,
        s ∈ filterSales sales products (some ⟨some f, toOpt⟩) now tz
          ↔ s ∈ sales ∧
              qualifies products s (startOfDay tz f - 60000)
                ((match toOpt with
                  | some t => endOfDay tz t
                  | none => endOfDay tz now) + 60000))
      ∧ (∀ toOpt now tz, filterSales sales products (some ⟨none, toOpt⟩) now tz = [])
      ∧ ∀ now tz, filterSales sales products none now tz = [] := by
  refine ⟨?_, fun _ _ _ => rfl, fun _ _ => rfl⟩
  intro f toOpt now tz s
  show s ∈ sales.filter (saleInWindow (products.map fun p => p.id) _ _) ↔ _
  rw [List.mem_filter]
  exact and_congr_right fun _ => saleInWindow_iff products _ _ s hid

/-- Witness for C5: with the product `pSold` present, its canonical sale
(`soldAt = 1000`) is selected by the range `[day 0, day 0]`. -/
theorem C5_filterSales_membership_witness :
    sale0 ∈ filterSales [sale0] [pSold] (some ⟨some 0, some 0⟩) 0 0 := by
  refine ((C5_filterSales_membership [sale0] [pSold] ?_).1 0 (some 0) 0 0 sale0).mpr ?_
  · intro p hp
    rw [List.mem_singleton.1 hp]
    decide
  · exact ⟨by simp, ⟨pSold, by simp, rfl⟩, 1000, rfl, by decide, by decide⟩

/-! ## Claim C6 -/

/-- A `reduce((sum, x) => sum + (f(x) ?? 0), a)` over values that are never
`NaN` is the plain rational sum. -/
theorem foldl_add_fin {α : Type} (g : α → JsVal) (l : List α) (a : Rat)
    (h : ∀ x ∈ l, g x ≠ .nan) :
    l.foldl (fun sum x => JsNum.add sum ((g x).nullishNum 0)) (.fin a)
      = .fin (a + (l.map fun x => finOr0 (g x)).sum) := by
  induction l generalizing a with
  | nil => simp
  | cons x rest ih =>
    have hx := h x (by simp)
    have hrest : ∀ y ∈ rest, g y ≠ .nan := fun y hy => h y (by simp [hy])
    cases hgx : g x with
    | undef =>
      rw [List.foldl_cons, hgx]
      show List.foldl _ (JsNum.fin (a + 0)) rest = _
      rw [ih (a + 0) hrest, List.map_cons, List.sum_cons, hgx]
      show JsNum.fin (a + 0 + _) = JsNum.fin (a + (finOr0 .undef + _))
      rw [show finOr0 .undef = 0 from rfl, add_assoc]
    | nan => exact absurd hgx hx
    | num q =>
      rw [List.foldl_cons, hgx]
      show List.foldl _ (JsNum.fin (a + q)) rest = _
      rw [ih (a + q) hrest, List.map_cons, List.sum_cons, hgx]
      show JsNum.fin (a + q + _) = JsNum.fin (a + (finOr0 (.num q) + _))
      rw [show finOr0 (.num q) = q from rfl, add_assoc]

/-- A `reduce` of the same shape hits `NaN` as soon as one value is `NaN`
(or the accumulator already is), and `NaN` then absorbs the whole total. -/
theorem foldl_add_nan {α : Type} (g : α → JsVal) (l : List α) (s : JsNum)
    (h : (∃ x ∈ l, g x = .nan) ∨ s = .nan) :
    l.foldl (fun sum x => JsNum.add sum ((g x).nullishNum 0)) s = .nan := by
  induction l generalizing s with
  | nil =>
    rcases h with ⟨x, hx, _⟩ | rfl
    · exact absurd hx (List.not_mem_nil x)
    · rfl
  | cons x rest ih =>
    rw [List.foldl_cons]
    by_cases hgx : g x = .nan
    · refine ih _ (Or.inr ?_)
      rw [hgx]
      cases s <;> rfl
    · rcases h with ⟨y, hy, hgy⟩ | rfl
      · rcases List.mem_cons.1 hy with rfl | hy'
        · exact absurd hgy hgx
        · exact ih _ (Or.inl ⟨y, hy', hgy⟩)
      · refine ih _ (Or.inr ?_)
        cases (g x).nullishNum 0 <;> rfl

/-- Claim C6: the KPI totals are the plain sums the spec states —
`totalCost` over unsold products (independent of the date range),
`totalRevenue`/`totalProfit`/`itemsSold` over the qualifying sales — and
the concrete scenario (P1 buy 10 unsold; P2 buy 5 sold for 8 on day D;
range [D, D]) yields revenue 8, profit 3, one item sold, cost 10. -/
theorem C6_kpis_sums :
    (∀ (products : List ProductDoc) (fs : List SaleDoc),
        (∀ p ∈ products, p.buyPriceBHD ≠ .nan) →
        (kpis products fs).totalCost
          = .fin (((products.filter fun p => !p.sold).map fun p => finOr0 p.buyPriceBHD).sum))
      ∧ (∀ (products : List ProductDoc) (fs : List SaleDoc),
          (∀ s ∈ fs, s.soldPriceBHD ≠ .nan) →
          (kpis products fs).totalRevenue = .fin ((fs.map fun s => finOr0 s.soldPriceBHD).sum))
      ∧ (∀ (products : List ProductDoc) (fs : List SaleDoc),
          (∀ s ∈ fs, s.profitBHD ≠ .nan) →
          (kpis products fs).totalProfit = .fin ((fs.map fun s => finOr0 s.profitBHD).sum))
      ∧ (∀ (products : List ProductDoc) (fs : List SaleDoc),
          (kpis products fs).itemsSoldCount = fs.length)
      ∧ (∀ (products : List ProductDoc) (fs₁ fs₂ : List SaleDoc),
          (kpis products fs₁).totalCost = (kpis products fs₂).totalCost)
      ∧ kpis [p1Agg, pSold] (filterSales [sale0] [p1Agg, pSold] (some ⟨some 0, some 0⟩) 0 0)
          = { totalRevenue := .fin 8, totalCost := .fin 10, totalProfit := .fin 3,
              itemsSoldCount := 1 } := by
  refine ⟨?_, ?_, ?_, fun _ _ => rfl, fun _ _ _ => rfl, ?_⟩
  · intro products fs h
    have he := foldl_add_fin (fun p => p.buyPriceBHD) (products.filter fun p => !p.sold) 0
      (fun p hp => h p (List.mem_of_mem_filter hp))
    rw [zero_add] at he
    exact he
  · intro products fs h
    have he := foldl_add_fin (fun s => s.soldPriceBHD) fs 0 h
    rw [zero_add] at he
    exact he
  · intro products fs h
    have he := foldl_add_fin (fun s => s.profitBHD) fs 0 h
    rw [zero_add] at he
    exact he
  · rw [show filterSales [sale0] [p1Agg, pSold] (some ⟨some 0, some 0⟩) 0 0 = [sale0] from rfl]
    norm_num [kpis, sale0, p1Agg, pSold, pUnsold, JsVal.nullishNum, JsNum.add,
      List.filter, List.foldl]

/-- Witness for C6: its concrete aggregation scenario, extracted from the
theorem. -/
theorem C6_kpis_sums_witness :
    kpis [p1Agg, pSold] (filterSales [sale0] [p1Agg, pSold] (some ⟨some 0, some 0⟩) 0 0)
      = { totalRevenue := .fin 8, totalCost := .fin 10, totalProfit := .fin 3,
          itemsSoldCount := 1 } :=
  C6_kpis_sums.2.2.2.2.2

/-! ## Claim C7 -/

/-- Looking up a key never written by a record-building fold gives the
record's previous value at that key. -/
theorem foldl_rset_notmem (F : OwnerDoc → JsVal) (l : List OwnerDoc)
    (m : String → JsVal) (k : String) (h : k ∉ l.map fun o => o.id) :
    (l.foldl (fun w o => rset w o.id (F o)) m) k = m k := by
  induction l generalizing m with
  | nil => rfl
  | cons x rest ih =>
    rw [List.foldl_cons, ih _ (fun hm => h (by simp [hm]))]
    have hk : k ≠ x.id := fun he => h (by simp [he])
    simp [rset, hk]

/-- With pairwise-distinct owner ids, a record-building fold stores exactly
`F o` under `o.id`. -/
theorem foldl_rset_mem (F : OwnerDoc → JsVal) (l : List OwnerDoc)
    (m : String → JsVal) (o : OwnerDoc) (ho : o ∈ l)
    (hnd : (l.map fun o => o.id).Nodup) :
    (l.foldl (fun w o => rset w o.id (F o)) m) o.id = F o := by
  induction l generalizing m with
  | nil => cases ho
  | cons x rest ih =>
    simp only [List.map_cons] at hnd
    rw [List.foldl_cons]
    rcases List.mem_cons.1 ho with rfl | ho'
    · rw [foldl_rset_notmem F rest _ o.id (List.nodup_cons.1 hnd).1]
      simp [rset]
    · exact ih _ ho' (List.nodup_cons.1 hnd).2

/-- `(JsVal.num q) || 0` is just `q`. -/
theorem orZero_num (q : Rat) : (JsVal.num q).orZero = q := by
  by_cases h : q = 0 <;> simp [JsVal.orZero, h]

/-- Claim C7: for owners with numeric nonnegative contributions (distinct
ids, at least one owner) and a latest sale of finite profit `p`, each
displayed share is `p` times the claim's weight, the shares sum to `p`,
and with no latest sale every share is 0. -/
theorem C7_latest_shares (owners : List OwnerDoc) (s : SaleDoc) (p : Rat)
    (hprof : s.profitBHD = .num p)
    (hc : ∀ o ∈ owners, ∃ q, o.contributionBHD = .num q ∧ 0 ≤ q)
    (hnd : (owners.map fun o => o.id).Nodup)
    (hne : owners ≠ []) :
    (∀ o ∈ owners, shareAmount owners (some s) o.id = p * specWeight owners o)
      ∧ (owners.map fun o => shareAmount owners (some s) o.id).sum = p
      ∧ ∀ (others : List OwnerDoc) (oid : String), shareAmount others none oid = 0 := by
  have hie : owners.isEmpty = false := by
    cases owners with
    | nil => exact absurd rfl hne
    | cons a l => rfl
  have hlen : (owners.length : Rat) ≠ 0 := by
    cases owners with
    | nil => exact absurd rfl hne
    | cons a l => exact_mod_cast Nat.cast_ne_zero.2 (Nat.succ_ne_zero l.length)
  have htc : totalContribution owners = .fin (specTotal owners) := by
    have he := foldl_add_fin (fun o => o.contributionBHD) owners 0
      (fun o ho => by
        obtain ⟨q, hq, -⟩ := hc o ho
        show o.contributionBHD ≠ JsVal.nan
        rw [hq]
        intro hcontra
        cases hcontra)
    rw [zero_add] at he
    exact he
  have hlp : latestProfit (some s) = .fin p := by
    simp [latestProfit, hprof, JsVal.nullishNum]
  have hshare : ∀ o ∈ owners, shareAmount owners (some s) o.id = p * specWeight owners o := by
    intro o ho
    obtain ⟨q, hq, hq0⟩ := hc o ho
    by_cases htp : 0 < specTotal owners
    · have hgt : (totalContribution owners).gtZero = true := by
        rw [htc]
        simpa [JsNum.gtZero] using htp
      have hw : weights owners (some s) o.id
          = .num (max 0 o.contributionBHD.orZero / specTotal owners) := by
        unfold weights
        rw [hie]
        simp only [Bool.false_or, Option.isNone_none, if_false]
        rw [htc]
        simp only [JsNum.gtZero, decide_eq_true_eq, if_pos htp]
        rw [if_neg (ne_of_gt htp)]
        exact foldl_rset_mem _ owners _ o ho hnd
      have hls : latestShares owners (some s)
          = owners.foldl (fun res o => rset res o.id
              ((JsNum.mul (latestProfit (some s))
                ((weights owners (some s) o.id).nullishNum 0)).toVal)) (fun _ => .undef) := rfl
      show (latestShares owners (some s) o.id).orZero = _
      rw [hls, foldl_rset_mem _ owners _ o ho hnd, hlp, hw]
      rw [hq, orZero_num]
      show (JsNum.fin (p * (max 0 q / specTotal owners))).toVal.orZero = _
      rw [JsNum.toVal, orZero_num, specWeight, if_pos htp]
      show p * (max 0 q / specTotal owners) = p * (max 0 (contribR o) / specTotal owners)
      rw [contribR, hq]
      rfl
    · have hgt : (totalContribution owners).gtZero = false := by
        rw [htc]
        simpa [JsNum.gtZero] using htp
      have hw : weights owners (some s) o.id = .num (1 / (owners.length : Rat)) := by
        unfold weights
        rw [hie]
        simp only [Bool.false_or, Option.isNone_none, if_false]
        rw [htc]
        simp only [JsNum.gtZero, decide_eq_true_eq, if_neg htp]
        simp only [hie, Bool.false_eq_true, if_false]
        exact foldl_rset_mem _ owners _ o ho hnd
      have hls : latestShares owners (some s)
          = owners.foldl (fun res o => rset res o.id
              ((JsNum.mul (latestProfit (some s))
                ((weights owners (some s) o.id).nullishNum 0)).toVal)) (fun _ => .undef) := rfl
      show (latestShares owners (some s) o.id).orZero = _
      rw [hls, foldl_rset_mem _ owners _ o ho hnd, hlp, hw]
      show (JsNum.fin (p * (1 / (owners.length : Rat)))).toVal.orZero = _
      rw [JsNum.toVal, orZero_num, specWeight, if_neg htp]
  refine ⟨hshare, ?_, fun others oid => rfl⟩
  rw [List.map_congr_left hshare, List.sum_map_mul_left]
  by_cases htp : 0 < specTotal owners
  · have hmax : ∀ o ∈ owners, specWeight owners o = contribR o * (specTotal owners)⁻¹ := by
      intro o ho
      obtain ⟨q, hq, hq0⟩ := hc o ho
      rw [specWeight, if_pos htp, div_eq_mul_inv]
      congr 1
      rw [contribR, hq]
      show max 0 q = q
      exact max_eq_right hq0
    rw [List.map_congr_left hmax, List.sum_map_mul_right]
    show p * (specTotal owners * (specTotal owners)⁻¹) = p
    rw [mul_inv_cancel₀ (ne_of_gt htp), mul_one]
  · have heq : ∀ o ∈ owners, specWeight owners o = 1 / (owners.length : Rat) :=
      fun o _ => by rw [specWeight, if_neg htp]
    rw [List.map_congr_left heq, List.map_const', List.sum_replicate, nsmul_eq_mul]
    rw [mul_one_div, div_self hlen, mul_one]

/-- Witness for C7: the claim's allocation scenario — contributions 30/70
with profit 20 give shares 6 and 14; zero contributions give 10 and 10. -/
theorem C7_latest_shares_witness :
    shareAmount [ownA, ownB] (some sale20) "a" = 6
      ∧ shareAmount [ownA, ownB] (some sale20) "b" = 14
      ∧ shareAmount [ownA0, ownB0] (some sale20) "a" = 10
      ∧ shareAmount [ownA0, ownB0] (some sale20) "b" = 10 := by
  have h1 := (C7_latest_shares [ownA, ownB] sale20 20 rfl
    (fun o ho => by
      rcases List.mem_cons.1 ho with rfl | ho'
      · exact ⟨30, rfl, by norm_num⟩
      · rw [List.mem_singleton.1 ho']
        exact ⟨70, rfl, by norm_num⟩)
    (by decide) (by decide)).1
  have h2 := (C7_latest_shares [ownA0, ownB0] sale20 20 rfl
    (fun o ho => by
      rcases List.mem_cons.1 ho with rfl | ho'
      · exact ⟨0, rfl, le_refl 0⟩
      · rw [List.mem_singleton.1 ho']
        exact ⟨0, rfl, le_refl 0⟩)
    (by decide) (by decide)).1
  refine ⟨?_, ?_, ?_, ?_⟩
  · rw [show ("a" : String) = ownA.id from rfl, h1 ownA (by simp)]
    norm_num [specWeight, specTotal, contribR, finOr0, ownA, ownB]
  · rw [show ("b" : String) = ownB.id from rfl, h1 ownB (by simp)]
    norm_num [specWeight, specTotal, contribR, finOr0, ownA, ownB]
  · rw [show ("a" : String) = ownA0.id from rfl, h2 ownA0 (by simp)]
    norm_num [specWeight, specTotal, contribR, finOr0, ownA0, ownB0, ownA, ownB]
  · rw [show ("b" : String) = ownB0.id from rfl, h2 ownB0 (by simp)]
    norm_num [specWeight, specTotal, contribR, finOr0, ownA0, ownB0, ownA, ownB]

/-! ## Claim C8 -/

/-- `addDay` at the inserted key adds onto the stored pair (or starts
one). -/
theorem lookupDay_addDay_self (acc : List (Int × Rat × Rat)) (d : Int) (r p : Rat) :
    lookupDay d (addDay acc d r p)
      = match lookupDay d acc with
        | some (r', p') => some (r' + r, p' + p)
        | none => some (r, p) := by
  induction acc with
  | nil => simp [addDay, lookupDay]
  | cons x rest ih =>
    obtain ⟨e, r', p'⟩ := x
    by_cases hd : e = d
    · subst hd
      simp [addDay, lookupDay]
    · simp only [addDay, if_neg hd, lookupDay, ih]

/-- `addDay` leaves other keys untouched. -/
theorem lookupDay_addDay_ne (acc : List (Int × Rat × Rat)) (k d : Int) (r p : Rat)
    (h : k ≠ d) :
    lookupDay k (addDay acc d r p) = lookupDay k acc := by
  induction acc with
  | nil => simp [addDay, lookupDay, Ne.symm h]
  | cons x rest ih =>
    obtain ⟨e, r', p'⟩ := x
    by_cases hd : e = d
    · subst hd
      simp [addDay, lookupDay, Ne.symm h]
    · simp only [addDay, if_neg hd, lookupDay, ih]

/-- Keys after `addDay`: unchanged if present, appended otherwise. -/
theorem dayKeys_addDay (acc : List (Int × Rat × Rat)) (d : Int) (r p : Rat) :
    dayKeys (addDay acc d r p)
      = if d ∈ dayKeys acc then dayKeys acc else dayKeys acc ++ [d] := by
  induction acc with
  | nil => simp [addDay, dayKeys]
  | cons x rest ih =>
    obtain ⟨e, r', p'⟩ := x
    by_cases hd : e = d
    · subst hd
      simp [addDay, dayKeys]
    · have hne : d ≠ e := Ne.symm hd
      rw [show addDay ((e, r', p') :: rest) d r p = (e, r', p') :: addDay rest d r p from
        by simp [addDay, hd]]
      show e :: dayKeys (addDay rest d r p) = _
      rw [ih, show dayKeys ((e, r', p') :: rest) = e :: dayKeys rest from rfl]
      by_cases hm : d ∈ dayKeys rest
      · rw [if_pos hm, if_pos (show d ∈ e :: dayKeys rest from List.mem_cons_of_mem _ hm)]
      · rw [if_neg hm, if_neg (show d ∉ e :: dayKeys rest from by
          intro hcon
          rcases List.mem_cons.1 hcon with hcon' | hcon'
          · exact hne hcon'
          · exact hm hcon')]
        rfl

/-- `addDay` preserves distinctness of keys. -/
theorem nodup_dayKeys_addDay (acc : List (Int × Rat × Rat)) (d : Int) (r p : Rat)
    (h : (dayKeys acc).Nodup) : (dayKeys (addDay acc d r p)).Nodup := by
  rw [dayKeys_addDay]
  split
  · exact h
  · next hnot =>
    simp only [List.nodup_append, List.nodup_cons]
    exact ⟨h, by simp, by simpa using hnot⟩

/-- Unfolding `dayRevenue` over a cons cell. -/
theorem dayRevenue_cons (tz d : Int) (s : SaleDoc) (rest : List SaleDoc) :
    dayRevenue tz d (s :: rest)
      = (match s.soldAt with
          | none => 0
          | some t => if dayKey tz t = d then s.soldPriceBHD.orZero else 0)
        + dayRevenue tz d rest := rfl

/-- Unfolding `dayProfit` over a cons cell. -/
theorem dayProfit_cons (tz d : Int) (s : SaleDoc) (rest : List SaleDoc) :
    dayProfit tz d (s :: rest)
      = (match s.soldAt with
          | none => 0
          | some t => if dayKey tz t = d then s.profitBHD.orZero else 0)
        + dayProfit tz d rest := rfl

/-- The grouping fold of `dailyData`, with a general accumulator: the entry
stored under `d` afterwards is the entry before plus day `d`'s
contributions from the traversed sales. -/
theorem lookupDay_byDay_fold (tz : Int) (l : List SaleDoc)
    (acc : List (Int × Rat × Rat)) (d : Int) :
    lookupDay d (l.foldl
        (fun acc s =>
          match s.soldAt with
          | none => acc
          | some t => addDay acc (dayKey tz t) s.soldPriceBHD.orZero s.profitBHD.orZero)
        acc)
      = match lookupDay d acc with
        | some (r, p) => some (r + dayRevenue tz d l, p + dayProfit tz d l)
        | none =>
            if hasDayB tz d l then some (dayRevenue tz d l, dayProfit tz d l) else none := by
  induction l generalizing acc with
  | nil =>
    cases h : lookupDay d acc with
    | none => simp [dayRevenue, dayProfit, hasDayB, h]
    | some e =>
      obtain ⟨r, p⟩ := e
      simp [dayRevenue, dayProfit, h]
  | cons s rest ih =>
    cases hsold : s.soldAt with
    | none =>
      simp only [List.foldl_cons, hsold]
      rw [ih]
      simp only [dayRevenue_cons, dayProfit_cons, hsold, zero_add]
      have hh : hasDayB tz d (s :: rest) = hasDayB tz d rest := by
        simp [hasDayB, List.any_cons, hsold]
      rw [hh]
    | some t =>
      by_cases hk : dayKey tz t = d
      · simp only [List.foldl_cons, hsold]
        rw [ih, hk, lookupDay_addDay_self]
        simp only [dayRevenue_cons, dayProfit_cons, hsold, if_pos hk]
        have hh : hasDayB tz d (s :: rest) = true := by
          simp [hasDayB, List.any_cons, hsold, hk]
        rw [hh]
        cases h : lookupDay d acc with
        | none => cases h2 : hasDayB tz d rest <;> simp [add_assoc]
        | some e =>
          obtain ⟨r, p⟩ := e
          cases h2 : hasDayB tz d rest <;> simp [add_assoc]
      · simp only [List.foldl_cons, hsold]
        rw [ih, lookupDay_addDay_ne _ _ _ _ _ (Ne.symm hk)]
        simp only [dayRevenue_cons, dayProfit_cons, hsold, if_neg hk, zero_add]
        have hh : hasDayB tz d (s :: rest) = hasDayB tz d rest := by
          simp [hasDayB, List.any_cons, hsold, hk]
        rw [hh]

/-- The `byDay` record holds, under day `d`, exactly day `d`'s revenue and
profit sums — and holds a `d` entry only when some sale falls on `d`. -/
theorem lookupDay_byDay (tz : Int) (l : List SaleDoc) (d : Int) :
    lookupDay d (byDay tz l)
      = if hasDayB tz d l then some (dayRevenue tz d l, dayProfit tz d l) else none := by
  have h := lookupDay_byDay_fold tz l [] d
  rw [show lookupDay d ([] : List (Int × Rat × Rat)) = none from rfl] at h
  exact h

/-- The `byDay` record has pairwise-distinct keys. -/
theorem nodup_dayKeys_byDay (tz : Int) (l : List SaleDoc) :
    (dayKeys (byDay tz l)).Nodup := by
  have hgen : ∀ acc : List (Int × Rat × Rat), (dayKeys acc).Nodup →
      (dayKeys (l.foldl
        (fun acc s =>
          match s.soldAt with
          | none => acc
          | some t => addDay acc (dayKey tz t) s.soldPriceBHD.orZero s.profitBHD.orZero)
        acc)).Nodup := by
    induction l with
    | nil => exact fun acc h => h
    | cons s rest ih =>
      intro acc h
      rw [List.foldl_cons]
      cases hsold : s.soldAt with
      | none =>
        simp only [hsold]
        exact ih acc h
      | some t =>
        simp only [hsold]
        exact ih _ (nodup_dayKeys_addDay _ _ _ _ h)
  exact hgen [] List.nodup_nil

/-- In an association list with distinct keys, membership is exactly a
successful lookup. -/
theorem mem_iff_lookupDay (l : List (Int × Rat × Rat)) (hnd : (dayKeys l).Nodup)
    (d : Int) (r p : Rat) :
    (d, r, p) ∈ l ↔ lookupDay d l = some (r, p) := by
  induction l with
  | nil => simp [lookupDay]
  | cons x rest ih =>
    obtain ⟨e, r', p'⟩ := x
    have hnd' : (dayKeys rest).Nodup ∧ e ∉ dayKeys rest := by
      have := List.nodup_cons.1 (show (e :: dayKeys rest).Nodup from hnd)
      exact ⟨this.2, this.1⟩
    by_cases hd : e = d
    · subst hd
      rw [show lookupDay e ((e, r', p') :: rest) = some (r', p') from by
        simp [lookupDay]]
      constructor
      · intro hm
        rcases List.mem_cons.1 hm with heq | hm'
        · obtain ⟨rfl, rfl⟩ : r = r' ∧ p = p' := by simpa using heq
          rfl
        · exact absurd (List.mem_map.2 ⟨(e, r, p), hm', rfl⟩) hnd'.2
      · intro hs
        obtain ⟨rfl, rfl⟩ : r' = r ∧ p' = p := by simpa using hs
        exact List.mem_cons_self _ _
    · rw [show lookupDay d ((e, r', p') :: rest) = lookupDay d rest from by
        simp [lookupDay, hd]]
      rw [← ih hnd'.1]
      constructor
      · intro hm
        rcases List.mem_cons.1 hm with heq | hm'
        · cases heq
          exact absurd rfl hd
        · exact hm'
      · exact fun hm' => List.mem_cons_of_mem _ hm'

/-- Claim C8 as amended: `dailyData` groups the qualifying sales by the
calendar day of `soldAt` **in the client's local time zone** (offset `tz`),
sums `soldPrice` and `profit` per day, emits days strictly ascending, and
contains a day exactly when some sale falls on it (sparse, not
zero-filled), with that day's two sums. -/
theorem C8_dailyData_grouping (tz : Int) (filtered : List SaleDoc) :
    (dailyData tz filtered).Pairwise (fun a b => a.1 < b.1)
      ∧ ∀ d r p, (d, r, p) ∈ dailyData tz filtered
          ↔ hasDayB tz d filtered = true
              ∧ r = dayRevenue tz d filtered ∧ p = dayProfit tz d filtered := by
  have hperm : List.Perm (dailyData tz filtered) (byDay tz filtered) :=
    List.perm_insertionSort dayLE (byDay tz filtered)
  have hkeysperm : List.Perm ((dailyData tz filtered).map fun e : Int × Rat × Rat => e.1)
      ((byDay tz filtered).map fun e : Int × Rat × Rat => e.1) :=
    hperm.map fun e : Int × Rat × Rat => e.1
  have hndsorted : (dayKeys (dailyData tz filtered)).Nodup :=
    hkeysperm.nodup_iff.2 (nodup_dayKeys_byDay tz filtered)
  constructor
  · have hsorted : (dailyData tz filtered).Sorted dayLE :=
      List.sorted_insertionSort dayLE (byDay tz filtered)
    have hne : (dailyData tz filtered).Pairwise fun a b => a.1 ≠ b.1 :=
      List.pairwise_map.1 hndsorted
    exact (hsorted.and hne).imp fun h => lt_of_le_of_ne h.1 h.2
  · intro d r p
    rw [hperm.mem_iff, mem_iff_lookupDay _ (nodup_dayKeys_byDay tz filtered),
      lookupDay_byDay]
    by_cases hh : hasDayB tz d filtered
    · rw [if_pos hh]
      constructor
      · intro hs
        obtain ⟨h1, h2⟩ : dayRevenue tz d filtered = r ∧ dayProfit tz d filtered = p := by
          simpa using hs
        exact ⟨hh, h1.symm, h2.symm⟩
      · rintro ⟨-, rfl, rfl⟩
        rfl
    · rw [if_neg hh]
      simp only [reduceCtorEq, false_iff]
      rintro ⟨hcon, -⟩
      exact hh hcon

/-- Claim C8's fixed-calendar clause fails on the code: the same single
sale (sold at epoch instant 0) is bucketed under day 0 by a client at
UTC but under day −1 by a client one hour west of UTC — `format(d,
"yyyy-MM-dd")` uses the local wall-clock calendar, so the grouping depends
on the client's time zone offset. -/
theorem C8_dailyData_tz_counterexample :
    dailyData 0 [saleMidnight] = [(0, 8, 3)]
      ∧ dailyData (-3600000) [saleMidnight] = [(-1, 8, 3)]
      ∧ dailyData 0 [saleMidnight] ≠ dailyData (-3600000) [saleMidnight] := by
  have h1 : dailyData 0 [saleMidnight] = [(0, 8, 3)] := by
    show List.insertionSort dayLE (byDay 0 [saleMidnight]) = _
    rw [show byDay 0 [saleMidnight]
        = addDay [] (dayKey 0 0) (JsVal.num 8).orZero (JsVal.num 3).orZero from rfl]
    rw [orZero_num, orZero_num]
    rfl
  have h2 : dailyData (-3600000) [saleMidnight] = [(-1, 8, 3)] := by
    show List.insertionSort dayLE (byDay (-3600000) [saleMidnight]) = _
    rw [show byDay (-3600000) [saleMidnight]
        = addDay [] (dayKey (-3600000) 0) (JsVal.num 8).orZero (JsVal.num 3).orZero from rfl]
    rw [orZero_num, orZero_num]
    rfl
  refine ⟨h1, h2, ?_⟩
  rw [h1, h2]
  intro hcon
  have h0 := congrArg (fun l => l.map fun e => e.1) hcon
  simp at h0

/-! ## Claim C10 -/

/-- Claim C10 fails on the code: a single `NaN` `buyPrice` does not
"contribute 0" — `?? 0` does not catch `NaN`, so the whole `totalCost`
becomes `NaN` instead of the 10 the claim predicts for the remaining
well-formed product. -/
theorem C10_nan_counterexample :
    (kpis [p1Agg, pNan] []).totalCost = JsNum.nan
      ∧ (kpis [p1Agg, pNan] []).totalCost ≠ JsNum.fin 10 := by
  have h : (kpis [p1Agg, pNan] []).totalCost = JsNum.nan := rfl
  refine ⟨h, ?_⟩
  rw [h]
  intro hcon
  cases hcon

/-- A sale with no `soldAt` never passes the window filter. -/
theorem saleInWindow_eq_false_of_soldAt_none (ids : List String) (a b : Int) (s : SaleDoc)
    (h : s.soldAt = none) : saleInWindow ids a b s = false := by
  unfold saleInWindow
  cases hpid : s.productId with
  | none => rfl
  | some pid =>
    simp only []
    rw [h]
    split
    · rfl
    · split
      · rfl
      · rfl

/-- Claim C10 as amended: the aggregation and allocation computations are
total; a **missing** numeric field contributes 0 to its sum and a sale with
a missing `soldAt` simply does not qualify; but a **non-finite** (`NaN`)
numeric field is not treated as 0 — it propagates and turns the whole
affected total into `NaN`. -/
theorem C10_malformed_fields :
    (∀ (p : ProductDoc) (ps : List ProductDoc) (fs : List SaleDoc),
        p.buyPriceBHD = .undef → p.sold = false →
        (kpis (p :: ps) fs).totalCost = (kpis ps fs).totalCost)
      ∧ (∀ (s : SaleDoc) (fs : List SaleDoc) (ps : List ProductDoc),
          s.soldPriceBHD = .undef →
          (kpis ps (s :: fs)).totalRevenue = (kpis ps fs).totalRevenue)
      ∧ (∀ (sales : List SaleDoc) (products : List ProductDoc) (r : Option DateRangeV)
          (now tz : Int) (s : SaleDoc), s.soldAt = none →
          s ∉ filterSales sales products r now tz)
      ∧ (∀ (ps : List ProductDoc) (fs : List SaleDoc),
          (∃ p ∈ ps, p.sold = false ∧ p.buyPriceBHD = .nan) →
          (kpis ps fs).totalCost = JsNum.nan)
      ∧ ∀ (owners : List OwnerDoc) (o : OwnerDoc), o ∈ owners →
          o.contributionBHD = .nan → totalContribution owners = JsNum.nan := by
  refine ⟨?_, ?_, ?_, ?_, ?_⟩
  · intro p ps fs hbuy hsold
    show (List.filter (fun q => !q.sold) (p :: ps)).foldl
      (fun sum q => JsNum.add sum (q.buyPriceBHD.nullishNum 0)) (JsNum.fin 0) = _
    rw [List.filter_cons_of_pos (by simp [hsold]), List.foldl_cons, hbuy]
    rw [show JsNum.add (JsNum.fin 0) (JsVal.undef.nullishNum 0) = JsNum.fin 0 from by
      show JsNum.fin (0 + 0) = JsNum.fin 0
      norm_num]
    rfl
  · intro s fs ps hsp
    show (s :: fs).foldl
      (fun sum q => JsNum.add sum (q.soldPriceBHD.nullishNum 0)) (JsNum.fin 0) = _
    rw [List.foldl_cons, hsp]
    rw [show JsNum.add (JsNum.fin 0) (JsVal.undef.nullishNum 0) = JsNum.fin 0 from by
      show JsNum.fin (0 + 0) = JsNum.fin 0
      norm_num]
    rfl
  · intro sales products r now tz s hsold hmem
    rcases r with - | r0
    · exact List.not_mem_nil s hmem
    · obtain ⟨fD, tD⟩ := r0
      cases fD with
      | none => exact List.not_mem_nil s hmem
      | some f =>
        have hpred := (List.mem_filter.1 hmem).2
        rw [saleInWindow_eq_false_of_soldAt_none _ _ _ s hsold] at hpred
        exact Bool.false_ne_true hpred
  · intro ps fs ⟨p, hp, hps, hbn⟩
    show (List.filter (fun q => !q.sold) ps).foldl
      (fun sum q => JsNum.add sum (q.buyPriceBHD.nullishNum 0)) (JsNum.fin 0) = JsNum.nan
    refine foldl_add_nan (fun q => q.buyPriceBHD) (ps.filter fun q => !q.sold) (JsNum.fin 0)
      (Or.inl ⟨p, ?_, hbn⟩)
    refine List.mem_filter.2 ⟨hp, ?_⟩
    rw [hps]
    rfl
  · intro owners o ho hnan
    exact foldl_add_nan (fun q => q.contributionBHD) owners (.fin 0) (Or.inl ⟨o, ho, hnan⟩)

/-- Witness for C10 (amended) at concrete inputs: a missing buy price
contributes nothing, and a `NaN` buy price poisons `totalCost`. -/
theorem C10_malformed_fields_witness :
    (kpis [{ pUnsold with buyPriceBHD := .undef }, p1Agg] []).totalCost
        = (kpis [p1Agg] []).totalCost
      ∧ (kpis [p1Agg, pNan] []).totalCost = JsNum.nan := by
  constructor
  · exact C10_malformed_fields.1 { pUnsold with buyPriceBHD := .undef } [p1Agg] [] rfl rfl
  · exact C10_malformed_fields.2.2.2.1 [p1Agg, pNan] []
      ⟨pNan, by simp, rfl, rfl⟩

